import Mathlib

/-!
Verification of the retrieval-and-ranking pipeline of the repository:
the `aimakerspace` library (`text_utils.py`, `vectordatabase.py`) of the
fullstack RAG PDF-chat app, and the `VectorStore` service
(`app/services/vector_store.py`) of the insurance-lens app.

Modelling conventions:
* Python floats are modelled as exact rationals (`ℚ`); values that the code
  obtains from real-number functions (`sqrt`) live in `ℝ`.
* Python strings and text are modelled as `String` / `List Char`.
* External collaborators (OpenAI embeddings, the Qdrant client, the
  `rank_bm25` scorer, the Cohere reranker) are modelled as explicit
  parameters/oracles: the functions under verification receive their
  outputs as arguments, exactly at the call sites where the Python code
  invokes them.
* A Python `dict` built by successive insertions is modelled as the
  association list of its insertions; `d.get(k, default)` looks the key up
  from the most recent insertion backwards (later duplicate keys
  overwrite earlier ones), and iteration order (first-insertion order
  with in-place overwrite) is modelled by `upsert`.
* A raised Python exception is modelled with `Except`.
-/

namespace Spec2Proof

/-! ## aimakerspace/vectordatabase.py -/

/-- `np.dot(a, b)` on (equal-length) float vectors. -/
def dot (a b : List ℚ) : ℚ := (List.zipWith (· * ·) a b).sum

/-- The square of `np.linalg.norm(v)`: the sum of the squared entries. -/
def normSq (v : List ℚ) : ℚ := dot v v

/-- `cosine_similarity(vector_a, vector_b)`:
`norm_a = np.linalg.norm(vector_a)`, `norm_b = np.linalg.norm(vector_b)`;
`if norm_a == 0 or norm_b == 0: return 0.0`;
`return np.dot(vector_a, vector_b) / (norm_a * norm_b)`.
The guard `‖a‖ = 0 ∨ ‖b‖ = 0` is expressed on the squared norms
(`√x = 0 ↔ x = 0` for `x ≥ 0`). -/
noncomputable def cosine_similarity (a b : List ℚ) : ℝ :=
  if normSq a = 0 ∨ normSq b = 0 then 0
  else (dot a b : ℝ) / (Real.sqrt (normSq a : ℝ) * Real.sqrt (normSq b : ℝ))

/-- `VectorDatabase.search(query_vector, k, distance_measure)`.
`self.vectors.items()` is passed in as the list `vectors` (a Python dict in
insertion order, one entry per key).  The code guards `if k <= 0: raise
ValueError(...)` before any similarity is computed, then scores every
stored vector with `distance_measure`, sorts descending by score
(`sort(key=..., reverse=True)` — a stable descending sort), and returns
the first `k` entries. -/
def VectorDatabase.search (vectors : List (String × List ℚ)) (query_vector : List ℚ)
    (k : ℤ) (distance_measure : List ℚ → List ℚ → ℚ) :
    Except String (List (String × ℚ)) :=
  if k ≤ 0 then .error "k must be a positive integer"
  else
    let scores := vectors.map (fun kv => (kv.1, distance_measure query_vector kv.2))
    .ok ((scores.mergeSort (fun x y => decide (y.2 ≤ x.2))).take k.toNat)

/-! ## aimakerspace/text_utils.py — CharacterTextSplitter -/

/-- The splitter's configuration; the constructor rejects
`chunk_size <= chunk_overlap` with a `ValueError`, so a constructed
splitter always satisfies `chunk_overlap < chunk_size` (carried as a
hypothesis in the theorems). -/
structure CharacterTextSplitter where
  chunk_size : ℕ
  chunk_overlap : ℕ
  deriving Repr, DecidableEq

/-- Python `range(0, n, step)` for `step > 0`: the multiples of `step`
below `n`, i.e. `i * step` for `i < ⌈n / step⌉`. -/
def pyRange (n step : ℕ) : List ℕ :=
  (List.range ((n + step - 1) / step)).map (· * step)

/-- `CharacterTextSplitter.split(text)`:
`step = self.chunk_size - self.chunk_overlap`;
`return [text[i : i + self.chunk_size] for i in range(0, len(text), step)]`.
Python slicing clamps at the end of the string, as `drop`/`take` do. -/
def CharacterTextSplitter.split (s : CharacterTextSplitter) (text : List Char) :
    List (List Char) :=
  (pyRange text.length (s.chunk_size - s.chunk_overlap)).map
    (fun i => (text.drop i).take s.chunk_size)

/-- The reconstruction described by the spec's round-trip property: the
first chunk, followed by every later chunk with its first
`chunk_overlap` characters removed, concatenated. -/
def reconstruct (chunk_overlap : ℕ) : List (List Char) → List Char
  | [] => []
  | c :: rest => c ++ (rest.map (List.drop chunk_overlap)).flatten

/-! ### Helper lemmas for the splitter -/

/-- The index bound of `pyRange`: `i < ⌈n / step⌉ ↔ i * step < n`. -/
theorem lt_ceilDiv_iff_mul_lt {n step i : ℕ} (hstep : 0 < step) :
    i < (n + step - 1) / step ↔ i * step < n := by
  rw [Nat.lt_iff_add_one_le, Nat.le_div_iff_mul_le hstep, Nat.succ_mul]
  generalize i * step = t
  omega

theorem pyRange_getElem? {n step : ℕ} (hstep : 0 < step) (i : ℕ) :
    (pyRange n step)[i]? = if i * step < n then some (i * step) else none := by
  unfold pyRange
  rw [List.getElem?_map]
  by_cases h : i < (n + step - 1) / step
  · rw [List.getElem?_range h, if_pos ((lt_ceilDiv_iff_mul_lt hstep).mp h)]
    rfl
  · rw [List.getElem?_eq_none (by simpa using Nat.le_of_not_lt h),
      if_neg (fun hc => h ((lt_ceilDiv_iff_mul_lt hstep).mpr hc))]
    rfl

theorem pyRange_zero {step : ℕ} : pyRange 0 step = [] := by
  have h : (0 + step - 1) / step = 0 := by
    rcases Nat.eq_zero_or_pos step with h | h
    · subst h
      rfl
    · exact Nat.div_eq_of_lt (by omega)
  unfold pyRange
  rw [h]
  rfl

theorem ceilDiv_pos_succ {n step : ℕ} (hstep : 0 < step) (hn : 0 < n) :
    (n + step - 1) / step = ((n - step) + step - 1) / step + 1 := by
  rcases le_or_lt n step with h | h
  · have h1 : n - step = 0 := by omega
    have h2 : n + step - 1 = (n - 1) + step := by omega
    rw [h1, h2, Nat.add_div_right _ hstep]
    have h3 : (n - 1) / step = 0 := Nat.div_eq_of_lt (by omega)
    have h4 : (0 + step - 1) / step = 0 := Nat.div_eq_of_lt (by omega)
    omega
  · have h2 : n + step - 1 = ((n - step) + step - 1) + step := by omega
    rw [h2, Nat.add_div_right _ hstep]

theorem pyRange_cons {n step : ℕ} (hstep : 0 < step) (hn : 0 < n) :
    pyRange n step = 0 :: (pyRange (n - step) step).map (· + step) := by
  unfold pyRange
  rw [ceilDiv_pos_succ hstep hn, List.range_succ_eq_map]
  simp only [List.map_cons, Nat.zero_mul, List.map_map]
  congr 1
  apply List.map_congr_left
  intro i _
  simp [Function.comp, Nat.succ_mul]

/-- Recursive characterization of `split`: on a non-empty text the first
chunk is `text[:chunk_size]` and the rest is the split of
`text[step:]`. -/
theorem split_cons (s : CharacterTextSplitter) (hvalid : s.chunk_overlap < s.chunk_size)
    (text : List Char) (hne : text ≠ []) :
    s.split text = text.take s.chunk_size ::
      s.split (text.drop (s.chunk_size - s.chunk_overlap)) := by
  have hstep : 0 < s.chunk_size - s.chunk_overlap := by omega
  have hn : 0 < text.length := List.length_pos.mpr hne
  unfold CharacterTextSplitter.split
  rw [pyRange_cons hstep hn, List.length_drop]
  simp only [List.map_cons, List.map_map, List.drop_zero]
  congr 1
  apply List.map_congr_left
  intro i _
  simp [Function.comp, List.drop_drop, Nat.add_comm]

theorem split_nil (s : CharacterTextSplitter) : s.split [] = [] := by
  unfold CharacterTextSplitter.split
  simp [pyRange_zero]

/-- Dropping the overlap of a chunk and appending the rest of the text
from the chunk's end is the same as the text from the overlap point. -/
theorem drop_take_append_drop (u : List Char) (cs co : ℕ) (h : co < cs) :
    List.drop co (List.take cs u) ++ List.drop cs u = List.drop co u := by
  have h2 : List.drop cs u = List.drop (cs - co) (List.drop co u) := by
    rw [List.drop_drop]
    congr 1
    omega
  rw [List.drop_take, h2, List.take_append_drop]

/-- The tail chunks of a split, each with the overlap removed,
concatenate to the text from the overlap point on. -/
theorem split_map_drop_flatten (s : CharacterTextSplitter)
    (hvalid : s.chunk_overlap < s.chunk_size) :
    ∀ u : List Char,
      ((s.split u).map (List.drop s.chunk_overlap)).flatten = u.drop s.chunk_overlap := by
  have hstep : 0 < s.chunk_size - s.chunk_overlap := by omega
  have main : ∀ n : ℕ, ∀ u : List Char, u.length = n →
      ((s.split u).map (List.drop s.chunk_overlap)).flatten = u.drop s.chunk_overlap := by
    intro n
    induction n using Nat.strong_induction_on with
    | _ n ih =>
      intro u hlen
      by_cases hne : u = []
      · subst hne
        simp [split_nil]
      · rw [split_cons s hvalid u hne]
        simp only [List.map_cons, List.flatten_cons]
        have hlt : (u.drop (s.chunk_size - s.chunk_overlap)).length < n := by
          rw [List.length_drop]
          have : 0 < u.length := List.length_pos.mpr hne
          omega
        rw [ih _ (hlen ▸ hlt) _ rfl, List.drop_drop]
        have hco : s.chunk_size - s.chunk_overlap + s.chunk_overlap = s.chunk_size := by
          omega
        rw [hco]
        exact drop_take_append_drop u s.chunk_size s.chunk_overlap hvalid
  exact fun u => main u.length u rfl

/-! ### Claims C6 and C7 -/

/-- **C6**: for every text and valid configuration
(`chunk_size > chunk_overlap ≥ 0`), `CharacterTextSplitter.split` returns
the chunks `text[i*step : i*step + chunk_size]` for `i = 0, 1, 2, ...`
with `step = chunk_size - chunk_overlap`, stopping when
`i*step ≥ len(text)`; in particular any 2000-character text with
`chunk_size = 1000`, `chunk_overlap = 200` yields exactly the chunks
`text[0:1000]`, `text[800:1800]`, `text[1600:2000]`. -/
theorem split_chunks_at_step_offsets (s : CharacterTextSplitter) (text : List Char)
    (hvalid : s.chunk_overlap < s.chunk_size) :
    (∀ i : ℕ, (s.split text)[i]? =
      if i * (s.chunk_size - s.chunk_overlap) < text.length then
        some ((text.drop (i * (s.chunk_size - s.chunk_overlap))).take s.chunk_size)
      else none) ∧
    (text.length = 2000 → s.chunk_size = 1000 → s.chunk_overlap = 200 →
      s.split text = [text.take 1000, (text.drop 800).take 1000, text.drop 1600]) := by
  have hstep : 0 < s.chunk_size - s.chunk_overlap := by omega
  constructor
  · intro i
    unfold CharacterTextSplitter.split
    rw [List.getElem?_map, pyRange_getElem? hstep i]
    by_cases h : i * (s.chunk_size - s.chunk_overlap) < text.length
    · rw [if_pos h, if_pos h]
      rfl
    · rw [if_neg h, if_neg h]
      rfl
  · intro hlen hcs hco
    unfold CharacterTextSplitter.split
    rw [hcs, hco, hlen]
    have hr : pyRange 2000 (1000 - 200) = [0, 800, 1600] := by
      unfold pyRange
      norm_num
      decide
    rw [hr]
    simp only [List.map_cons, List.map_nil, List.drop_zero]
    have hlast : List.take 1000 (List.drop 1600 text) = List.drop 1600 text := by
      apply List.take_of_length_le
      rw [List.length_drop, hlen]
      omega
    rw [hlast]

/-- Witness for C6 at a concrete 2000-character text. -/
theorem split_chunks_at_step_offsets_witness :
    (CharacterTextSplitter.mk 1000 200).split (List.replicate 2000 'a') =
      [(List.replicate 2000 'a').take 1000,
        ((List.replicate 2000 'a').drop 800).take 1000,
        (List.replicate 2000 'a').drop 1600] :=
  (split_chunks_at_step_offsets ⟨1000, 200⟩ (List.replicate 2000 'a')
    (by norm_num)).2 (List.length_replicate 2000 'a') rfl rfl

/-- **C7**: for every text and valid configuration of
`CharacterTextSplitter`, concatenating the first chunk with the portion
of each subsequent chunk after its first `chunk_overlap` characters
reconstructs the original text exactly. -/
theorem split_reconstructs_text (s : CharacterTextSplitter) (text : List Char)
    (hvalid : s.chunk_overlap < s.chunk_size) :
    reconstruct s.chunk_overlap (s.split text) = text := by
  by_cases hne : text = []
  · subst hne
    rw [split_nil]
    rfl
  · rw [split_cons s hvalid text hne]
    simp only [reconstruct]
    rw [split_map_drop_flatten s hvalid, List.drop_drop]
    have hco : s.chunk_size - s.chunk_overlap + s.chunk_overlap = s.chunk_size := by
      omega
    rw [hco, List.take_append_drop]

/-- Witness for C7 at a concrete text and configuration. -/
theorem split_reconstructs_text_witness :
    reconstruct 1 ((CharacterTextSplitter.mk 3 1).split ['a', 'b', 'c', 'd']) =
      ['a', 'b', 'c', 'd'] :=
  split_reconstructs_text ⟨3, 1⟩ ['a', 'b', 'c', 'd'] (by decide)

/-! ### Claim C4 — cosine similarity -/

theorem dot_comm (a b : List ℚ) : dot a b = dot b a := by
  unfold dot
  rw [List.zipWith_comm]
  simp [mul_comm]

theorem normSq_nonneg (v : List ℚ) : 0 ≤ normSq v := by
  unfold normSq dot
  rw [List.zipWith_same]
  exact List.sum_nonneg (by
    intro x hx
    obtain ⟨y, _, rfl⟩ := List.mem_map.mp hx
    exact mul_self_nonneg y)

/-- **C4**: `cosine_similarity` is symmetric; on a vector of non-zero
norm it gives `1` against itself; and whenever either argument has zero
(squared) norm it returns `0` instead of dividing by zero. -/
theorem cosine_similarity_props (a b : List ℚ) :
    cosine_similarity a b = cosine_similarity b a ∧
    (normSq a ≠ 0 → cosine_similarity a a = 1) ∧
    (normSq a = 0 ∨ normSq b = 0 → cosine_similarity a b = 0) := by
  refine ⟨?_, ?_, ?_⟩
  · unfold cosine_similarity
    by_cases h : normSq a = 0 ∨ normSq b = 0
    · rw [if_pos h, if_pos (Or.symm h)]
    · rw [if_neg h, if_neg (fun hc => h (Or.symm hc))]
      rw [dot_comm, mul_comm]
  · intro h
    unfold cosine_similarity
    rw [if_neg (by tauto)]
    have hq : (0 : ℝ) ≤ (normSq a : ℚ) := by
      exact_mod_cast normSq_nonneg a
    rw [Real.mul_self_sqrt hq]
    have : dot a a = normSq a := rfl
    rw [this, div_self (by exact_mod_cast h)]
  · intro h
    unfold cosine_similarity
    rw [if_pos h]

/-- Witness for C4 at concrete vectors. -/
theorem cosine_similarity_witness :
    cosine_similarity [1, 0] [1, 0] = 1 ∧ cosine_similarity [0, 0] [3, 4] = 0 :=
  ⟨(cosine_similarity_props [1, 0] [1, 0]).2.1 (by norm_num [normSq, dot]),
    (cosine_similarity_props [0, 0] [3, 4]).2.2 (Or.inl (by norm_num [normSq, dot]))⟩

/-! ### Claim C10 — VectorDatabase.search -/

/-- **C10**: `VectorDatabase.search` raises `ValueError` for every
`k ≤ 0` before computing any similarity (the error does not depend on the
distance measure or the stored vectors), and for `k ≥ 1` it returns
exactly `min(k, number of stored vectors)` results sorted descending by
similarity score. -/
theorem vdb_search_guard_and_topk (vectors : List (String × List ℚ))
    (query_vector : List ℚ) (distance_measure : List ℚ → List ℚ → ℚ) :
    (∀ k : ℤ, k ≤ 0 →
      VectorDatabase.search vectors query_vector k distance_measure =
        .error "k must be a positive integer") ∧
    (∀ k : ℤ, 1 ≤ k → ∃ out,
      VectorDatabase.search vectors query_vector k distance_measure = .ok out ∧
      out.length = min k.toNat vectors.length ∧
      out.Pairwise (fun x y => y.2 ≤ x.2)) := by
  constructor
  · intro k hk
    unfold VectorDatabase.search
    rw [if_pos hk]
  · intro k hk
    unfold VectorDatabase.search
    rw [if_neg (by omega)]
    refine ⟨_, rfl, ?_, ?_⟩
    · rw [List.length_take, List.length_mergeSort, List.length_map]
    · have hs := @List.sorted_mergeSort (String × ℚ)
        (fun x y => decide (y.2 ≤ x.2))
        (fun p q r hpq hqr => by
          rw [decide_eq_true_iff] at *
          exact le_trans hqr hpq)
        (fun p q => by
          rcases le_total q.2 p.2 with h | h <;> simp [h])
        (vectors.map (fun kv => (kv.1, distance_measure query_vector kv.2)))
      exact (List.Pairwise.sublist (List.take_sublist _ _) hs).imp
        (fun h => decide_eq_true_iff.mp h)

/-- Witness for C10 at a concrete database, query, and both sides of the
`k` guard. -/
theorem vdb_search_witness :
    (VectorDatabase.search [("a", [1]), ("b", [2])] [1] 0 dot =
      .error "k must be a positive integer") ∧
    ∃ out, VectorDatabase.search [("a", [1]), ("b", [2])] [1] 1 dot = .ok out ∧
      out.length = min (1 : ℤ).toNat ([("a", [1]), ("b", [2])] :
        List (String × List ℚ)).length ∧
      out.Pairwise (fun x y => y.2 ≤ x.2) :=
  ⟨(vdb_search_guard_and_topk [("a", [1]), ("b", [2])] [1] dot).1 0 (by norm_num),
    (vdb_search_guard_and_topk [("a", [1]), ("b", [2])] [1] dot).2 1 (by norm_num)⟩

/-! ## insurance-lens backend — app/models/internal.py -/

/-- `TextChunk` from `app/models/internal.py`. -/
structure TextChunk where
  id : String
  text : String
  page : ℤ
  chunk_index : ℤ
  token_count : ℤ
  start_char : Option ℤ := none
  end_char : Option ℤ := none
  deriving Repr, DecidableEq

/-- `SearchResult` from `app/models/internal.py` (scores are floats,
modelled as `ℚ`). -/
structure SearchResult where
  chunk : TextChunk
  score : ℚ
  distance : Option ℚ := none
  deriving Repr, DecidableEq

/-! ## insurance-lens backend — app/services/vector_store.py -/

/-- Python `max` on a list; `max([])` raises, and the `0` returned here
for `[]` is never reached at the (guarded) call site in `search_hybrid`. -/
def pyMax : List ℚ → ℚ
  | [] => 0
  | x :: xs => xs.foldl max x

/-- `d.get(k, default)` on a Python dict built by inserting the pairs of
`l` in order: a later duplicate key overwrites an earlier one, hence the
lookup runs over the reversed insertion list. -/
def pyDictGetD (l : List (String × ℚ)) (k : String) (d : ℚ) : ℚ :=
  (l.reverse.lookup k).getD d

/-- `m[k] = v` on a Python (insertion-ordered) dict: an existing key
keeps its position and receives the new value, a new key is appended. -/
def upsert {β : Type} (m : List (String × β)) (k : String) (v : β) :
    List (String × β) :=
  if m.any (fun p => p.1 == k) then
    m.map (fun p => if p.1 == k then (p.1, v) else p)
  else m ++ [(k, v)]

/-- The BM25 normalization block of `VectorStore.search_hybrid`:
`if max(bm25_scores) > 0: bm25_scores_norm = [score / max(bm25_scores)
for score in bm25_scores] else: bm25_scores_norm = bm25_scores`. -/
def normalizeBM25 (bm25_scores : List ℚ) : List ℚ :=
  if 0 < pyMax bm25_scores then bm25_scores.map (· / pyMax bm25_scores)
  else bm25_scores

/-- The collection name `f"{self.config.collection_prefix}{policy_id}"`,
with `pfx` the configured collection-name prefix. -/
def collectionName (pfx policy_id : String) : String :=
  pfx ++ policy_id

/-- `VectorStore.search_similar_chunks(policy_id, query, limit)`.
The Qdrant server's collection set is the `collections` argument; the
query embedding and Qdrant's thresholded top-`limit` search, plus the
1:1 conversion of each returned point into a `SearchResult`, are external
calls whose output is the `qdrant_results` oracle — the code performs
them only after the collection-existence check and returns the converted
results unchanged. -/
def search_similar_chunks (collections : Finset String)
    (pfx policy_id : String) (qdrant_results : List SearchResult) :
    List SearchResult :=
  if collectionName pfx policy_id ∈ collections then qdrant_results
  else []

/-- `VectorStore.search_hybrid(policy_id, query, limit, bm25_weight)` with
its external calls made explicit: `all_chunks = self._get_all_chunks(...)`,
`semantic_results = self.search_similar_chunks(..., limit=max_results*2)`
and `bm25_scores = BM25Okapi(corpus).get_scores(tokenized_query)` (one
score per chunk of `all_chunks`) are passed in; `similarity_threshold`
is the configured threshold and `max_results` the resolved
`limit or self.config.max_results`.  The two score dicts are Python
dict comprehensions (`pyDictGetD`), `combined_results` a Python dict
filled per chunk (`upsert`), and `sorted(..., reverse=True)` a stable
descending sort (`mergeSort`); the sorted list is filtered by the
threshold and truncated. -/
def search_hybrid (all_chunks : List TextChunk)
    (semantic_results : List SearchResult) (bm25_scores : List ℚ)
    (bm25_weight similarity_threshold : ℚ) (max_results : ℕ) :
    List SearchResult :=
  if all_chunks.isEmpty then []
  else
    let bm25_scores_norm := normalizeBM25 bm25_scores
    let bm25_score_dict := (all_chunks.map TextChunk.id).zip bm25_scores_norm
    let semantic_score_dict := semantic_results.map (fun r => (r.chunk.id, r.score))
    let combined_results := all_chunks.foldl (fun m chunk =>
      upsert m chunk.id
        { chunk := chunk,
          score := bm25_weight * pyDictGetD bm25_score_dict chunk.id 0 +
            (1 - bm25_weight) * pyDictGetD semantic_score_dict chunk.id 0,
          distance := none }) []
    let sorted_results := (combined_results.map Prod.snd).mergeSort
      (fun x y => decide (y.score ≤ x.score))
    (sorted_results.filter (fun r => decide (similarity_threshold ≤ r.score))).take
      max_results

/-- The exception classes defined in `app/core/exceptions.py` (the
taxonomy defines no reranking error class). -/
inductive LensExceptionClass where
  | insuranceLens
  | policy
  | policyNotFound
  | policyProcessing
  | answerGeneration
  | noRelevantChunks
  | answerGenerationFailed
  | vectorStore
  | collectionNotFound
  | pdfProcessing
  deriving Repr, DecidableEq

/-- A raised Python exception: an instance of one of the repository's
own exception classes (with its message), or an exception raised by a
third-party library (class name and message). -/
inductive PyException where
  | app : LensExceptionClass → String → PyException
  | thirdParty : (className message : String) → PyException
  deriving Repr, DecidableEq

/-- `VectorStore.search_with_rerank(policy_id, query, limit, rerank_top_k)`
with its external calls made explicit: `semantic_candidates` is the result
of `search_similar_chunks(..., limit=rerank_top_k)`, and the `reranker`
oracle is `self.reranker.compress_documents(documents, query)` returning
the reranked `(page_content, relevance_score)` pairs (the
`metadata.get("relevance_score", 0.0)` default applied) — or raising.
The code wraps the call in no `try`/`except`, so a raised exception
propagates unchanged; otherwise each reranked document (up to
`max_results`) is mapped back to the first semantic candidate with the
same text, skipped if none matches. -/
def search_with_rerank (semantic_candidates : List SearchResult)
    (reranker : List String → String → Except PyException (List (String × ℚ)))
    (query : String) (max_results : ℕ) :
    Except PyException (List SearchResult) :=
  if semantic_candidates.isEmpty then .ok []
  else
    match reranker (semantic_candidates.map (fun r => r.chunk.text)) query with
    | .error e => .error e
    | .ok reranked =>
        .ok ((reranked.take max_results).filterMap (fun doc =>
          (semantic_candidates.find? (fun c => c.chunk.text == doc.1)).map
            (fun c => { chunk := c.chunk, score := doc.2, distance := none })))

/-- `VectorStore.delete_policy(policy_id)`: checks
`collection_exists(collection_name)`, deletes the collection and returns
`True` when it exists, returns `False` otherwise.  The result is the
returned boolean together with the Qdrant collection set after the
call. -/
def delete_policy (collections : Finset String) (pfx policy_id : String) :
    Bool × Finset String :=
  if collectionName pfx policy_id ∈ collections then
    (true, collections.erase (collectionName pfx policy_id))
  else (false, collections)

/-! ### Claim C8 — delete_policy -/

/-- **C8**: `delete_policy` returns `True` iff the policy's collection
exists at call time; when one exists it drops exactly that collection;
and a second delete of the same policy always returns `False` — the
function is total, so no exception is raised. -/
theorem delete_policy_iff_and_idempotent (collections : Finset String)
    (pfx policy_id : String) :
    ((delete_policy collections pfx policy_id).1 = true ↔
      collectionName pfx policy_id ∈ collections) ∧
    (collectionName pfx policy_id ∈ collections →
      (delete_policy collections pfx policy_id).2 =
        collections.erase (collectionName pfx policy_id)) ∧
    (delete_policy (delete_policy collections pfx policy_id).2
      pfx policy_id).1 = false := by
  by_cases h : collectionName pfx policy_id ∈ collections
  · simp [delete_policy, h, Finset.not_mem_erase]
  · simp [delete_policy, h]

/-- Witness for C8 at a concrete collection set and policy id. -/
theorem delete_policy_witness :
    (delete_policy {"policies_p1"} "policies_" "p1").2 =
      ({"policies_p1"} : Finset String).erase (collectionName "policies_" "p1") :=
  (delete_policy_iff_and_idempotent {"policies_p1"} "policies_" "p1").2.1
    (by simp [collectionName])

/-! ### Claim C9 — search on a missing collection -/

/-- **C9**: for every policy id whose collection does not exist,
`search_similar_chunks` returns `[]`, whatever Qdrant would have answered
for the query; the function is total, so no exception is raised. -/
theorem search_missing_collection_empty (collections : Finset String)
    (pfx policy_id : String)
    (h : collectionName pfx policy_id ∉ collections) :
    ∀ qdrant_results,
      search_similar_chunks collections pfx policy_id qdrant_results = [] := by
  intro qdrant_results
  unfold search_similar_chunks
  rw [if_neg h]

/-- Witness for C9: a search against an empty Qdrant instance. -/
theorem search_missing_collection_empty_witness :
    search_similar_chunks ∅ "policies_" "p1"
      [⟨⟨"c1", "text", 1, 0, 3, none, none⟩, 9/10, none⟩] = [] :=
  search_missing_collection_empty ∅ "policies_" "p1" (by simp)
    [⟨⟨"c1", "text", 1, 0, 3, none, none⟩, 9/10, none⟩]

/-! ### Claim C5 — BM25 normalization safety -/

theorem foldl_max_init_le (l : List ℚ) : ∀ b : ℚ, b ≤ l.foldl max b := by
  induction l with
  | nil => intro b; exact le_refl b
  | cons y t ih =>
    intro b
    calc b ≤ max b y := le_max_left b y
      _ ≤ t.foldl max (max b y) := ih (max b y)

theorem mem_le_foldl_max (l : List ℚ) : ∀ b : ℚ, ∀ x ∈ l, x ≤ l.foldl max b := by
  induction l with
  | nil => intro b x hx; cases hx
  | cons y t ih =>
    intro b x hx
    rcases List.mem_cons.mp hx with rfl | hx'
    · calc x ≤ max b x := le_max_right b x
        _ ≤ t.foldl max (max b x) := foldl_max_init_le t (max b x)
    · exact ih (max b y) x hx'

theorem le_pyMax {l : List ℚ} (x : ℚ) (hx : x ∈ l) : x ≤ pyMax l := by
  cases l with
  | nil => cases hx
  | cons y t =>
    rcases List.mem_cons.mp hx with rfl | hx'
    · exact foldl_max_init_le t x
    · exact mem_le_foldl_max t y x hx'

/-- **C5**: the BM25 normalization of `search_hybrid` on a non-empty
batch of (non-negative) raw scores: if the maximum is positive every raw
score is divided by the maximum and the divisor is non-zero; if the
maximum is 0 the scores pass through unnormalized, and are then all zero
— in no case is there a division by zero. -/
theorem bm25_normalization_safe (bm25_scores : List ℚ) (hne : bm25_scores ≠ [])
    (hnn : ∀ s ∈ bm25_scores, 0 ≤ s) :
    (0 < pyMax bm25_scores →
      normalizeBM25 bm25_scores = bm25_scores.map (· / pyMax bm25_scores) ∧
      pyMax bm25_scores ≠ 0) ∧
    (pyMax bm25_scores = 0 →
      normalizeBM25 bm25_scores = bm25_scores ∧ ∀ s ∈ bm25_scores, s = 0) := by
  constructor
  · intro h
    refine ⟨?_, ne_of_gt h⟩
    unfold normalizeBM25
    rw [if_pos h]
  · intro h
    refine ⟨?_, ?_⟩
    · unfold normalizeBM25
      rw [if_neg (by rw [h]; exact lt_irrefl 0)]
    · intro s hs
      exact le_antisymm (h ▸ le_pyMax s hs) (hnn s hs)

/-- Witness for C5 at a concrete score batch with positive maximum. -/
theorem bm25_normalization_safe_witness :
    normalizeBM25 [2, 0] = [2, 0].map (· / pyMax [2, 0]) ∧ pyMax [2, 0] ≠ 0 :=
  (bm25_normalization_safe [2, 0] (by simp)
    (by
      intro s hs
      simp only [List.mem_cons, List.not_mem_nil, or_false] at hs
      rcases hs with rfl | rfl <;> norm_num)).1
    (by norm_num [pyMax])

/-! ### Claim C3 — rerank failure propagation -/

/-- **C3 counterexample**: at a concrete candidate set and a reranking
call raising a third-party Cohere exception, `search_with_rerank`
propagates the raw exception, which is not an instance of any exception
class the repository defines (`app/core/exceptions.py` defines no
`RerankServiceError`), so the failure does not propagate *as*
`RerankServiceError`. -/
theorem rerank_error_not_app_exception :
    search_with_rerank [⟨⟨"c1", "text1", 1, 0, 3, none, none⟩, 9/10, none⟩]
        (fun _ _ => .error (.thirdParty "CohereAPIError" "rate limited")) "q" 5 =
      .error (.thirdParty "CohereAPIError" "rate limited") ∧
    ∀ (k : LensExceptionClass) (msg : String),
      PyException.thirdParty "CohereAPIError" "rate limited" ≠ .app k msg :=
  ⟨rfl, fun _ _ h => PyException.noConfusion h⟩

/-- **C3 (amended)**: if the reranking call inside `search_with_rerank`
raises, that same exception propagates unchanged to the caller — the code
catches nothing and never substitutes a degraded, non-reranked result
list (the repository defines no `RerankServiceError` wrapper; the
reranker's own exception escapes). -/
theorem rerank_failure_propagates (semantic_candidates : List SearchResult)
    (hne : semantic_candidates ≠ [])
    (reranker : List String → String → Except PyException (List (String × ℚ)))
    (query : String) (max_results : ℕ) (e : PyException)
    (hfail : reranker (semantic_candidates.map (fun r => r.chunk.text)) query =
      .error e) :
    search_with_rerank semantic_candidates reranker query max_results =
      .error e := by
  unfold search_with_rerank
  rw [if_neg (by simp [List.isEmpty_iff, hne]), hfail]

/-- Witness for C3's amended theorem at a concrete candidate set and
failing reranker. -/
theorem rerank_failure_propagates_witness :
    search_with_rerank [⟨⟨"c2", "text2", 1, 0, 3, none, none⟩, 4/5, none⟩]
        (fun _ _ => .error (.thirdParty "ConnectionError" "timeout")) "query" 3 =
      .error (.thirdParty "ConnectionError" "timeout") :=
  rerank_failure_propagates [⟨⟨"c2", "text2", 1, 0, 3, none, none⟩, 4/5, none⟩]
    (by simp)
    (fun _ _ => .error (.thirdParty "ConnectionError" "timeout")) "query" 3
    (.thirdParty "ConnectionError" "timeout") rfl

/-! ### Helper lemmas: Python dict lookups as association lists -/

theorem lookup_eq_some_of_mem_nodup {l : List (String × ℚ)}
    (hnd : (l.map Prod.fst).Nodup) {k : String} {v : ℚ}
    (hm : (k, v) ∈ l) : l.lookup k = some v := by
  induction l with
  | nil => cases hm
  | cons p t ih =>
    obtain ⟨k', v'⟩ := p
    simp only [List.map_cons, List.nodup_cons] at hnd
    rcases List.mem_cons.mp hm with heq | hm'
    · cases heq
      simp [List.lookup]
    · have hkk : (k == k') = false := by
        apply beq_false_of_ne
        intro h
        exact hnd.1 (h ▸ List.mem_map.mpr ⟨(k, v), hm', rfl⟩)
      simp only [List.lookup, hkk]
      exact ih hnd.2 hm'

theorem lookup_eq_none_iff_keys (l : List (String × ℚ)) (k : String) :
    l.lookup k = none ↔ ∀ p ∈ l, (k == p.1) = false := by
  induction l with
  | nil => simp [List.lookup]
  | cons p t ih =>
    obtain ⟨k', v'⟩ := p
    cases h : (k == k') with
    | true =>
      have hsome : List.lookup k ((k', v') :: t) = some v' := by
        simp [List.lookup, h]
      rw [hsome]
      constructor
      · intro hno
        exact absurd hno (by simp)
      · intro hall
        have hf := hall (k', v') (List.mem_cons_self _ _)
        rw [h] at hf
        exact absurd hf (by simp)
    | false =>
      have hstep : List.lookup k ((k', v') :: t) = List.lookup k t := by
        simp [List.lookup, h]
      rw [hstep, ih]
      constructor
      · intro hall p hp
        rcases List.mem_cons.mp hp with rfl | hp'
        · exact h
        · exact hall p hp'
      · intro hall p hp
        exact hall p (List.mem_cons_of_mem _ hp)

theorem mem_of_lookup_eq_some {l : List (String × ℚ)} {k : String} {v : ℚ}
    (h : l.lookup k = some v) : (k, v) ∈ l := by
  induction l with
  | nil => simp [List.lookup] at h
  | cons p t ih =>
    obtain ⟨k', v'⟩ := p
    cases hk : (k == k') with
    | true =>
      simp only [List.lookup, hk, Option.some.injEq] at h
      have : k = k' := beq_iff_eq.mp hk
      exact List.mem_cons.mpr (Or.inl (by rw [this, h]))
    | false =>
      simp only [List.lookup, hk] at h
      exact List.mem_cons.mpr (Or.inr (ih h))

theorem lookup_reverse_of_nodup {l : List (String × ℚ)}
    (hnd : (l.map Prod.fst).Nodup) (k : String) :
    l.reverse.lookup k = l.lookup k := by
  cases hl : l.lookup k with
  | some v =>
    apply lookup_eq_some_of_mem_nodup
    · rw [List.map_reverse, List.nodup_reverse]
      exact hnd
    · exact List.mem_reverse.mpr (mem_of_lookup_eq_some hl)
  | none =>
    rw [lookup_eq_none_iff_keys] at hl ⊢
    intro p hp
    exact hl p (List.mem_reverse.mp hp)

/-- On a dict whose insertion keys are distinct, the Python `get` is the
plain association-list lookup. -/
theorem pyDictGetD_eq_lookup {l : List (String × ℚ)}
    (hnd : (l.map Prod.fst).Nodup) (k : String) (d : ℚ) :
    pyDictGetD l k d = (l.lookup k).getD d := by
  unfold pyDictGetD
  rw [lookup_reverse_of_nodup hnd]

/-- Looking a chunk's id up in the semantic score dict is finding the
first semantic result with that chunk id. -/
theorem lookup_map_pair_eq_find? (l : List SearchResult) (k : String) :
    (l.map (fun r => (r.chunk.id, r.score))).lookup k =
      (l.find? (fun r => k == r.chunk.id)).map SearchResult.score := by
  induction l with
  | nil => rfl
  | cons r t ih =>
    cases h : (k == r.chunk.id) with
    | true => simp [List.lookup, List.find?, h]
    | false => simp [List.lookup, List.find?, h, ih]

/-- Looking a chunk's id up in the BM25 score dict (ids zipped with the
normalized scores) returns the chunk's positional score. -/
theorem bm25_dict_lookup {all_chunks : List TextChunk} {norm : List ℚ}
    (hnd : (all_chunks.map TextChunk.id).Nodup)
    (hlen : norm.length = all_chunks.length)
    {c : TextChunk} {b : ℚ} (hm : (c, b) ∈ all_chunks.zip norm) :
    ((all_chunks.map TextChunk.id).zip norm).lookup c.id = some b := by
  apply lookup_eq_some_of_mem_nodup
  · rw [List.map_fst_zip _ _ (by rw [List.length_map, hlen])]
    exact hnd
  · rw [List.zip_map_left]
    exact List.mem_map.mpr ⟨(c, b), hm, rfl⟩

/-- Filling an insertion-ordered dict with one entry per chunk, for
pairwise-distinct chunk ids, appends the entries in chunk order. -/
theorem foldl_upsert_eq_map {β : Type} (F : TextChunk → β) :
    ∀ (chunks : List TextChunk) (m : List (String × β)),
      (chunks.map TextChunk.id).Nodup →
      (∀ c ∈ chunks, ∀ p ∈ m, p.1 ≠ c.id) →
      chunks.foldl (fun acc c => upsert acc c.id (F c)) m =
        m ++ chunks.map (fun c => (c.id, F c)) := by
  intro chunks
  induction chunks with
  | nil =>
    intro m _ _
    simp
  | cons c t ih =>
    intro m hnd hdisj
    simp only [List.map_cons, List.nodup_cons] at hnd
    simp only [List.foldl_cons]
    have hany : m.any (fun p => p.1 == c.id) = false := by
      rw [List.any_eq_false]
      intro p hp hb
      exact hdisj c (List.mem_cons_self c t) p hp (beq_iff_eq.mp hb)
    have hup : upsert m c.id (F c) = m ++ [(c.id, F c)] := by
      unfold upsert
      rw [if_neg (by simp [hany])]
    rw [hup, ih (m ++ [(c.id, F c)]) hnd.2 ?_]
    · simp
    · intro c' hc' p hp
      rcases List.mem_append.mp hp with hp' | hp'
      · exact hdisj c' (List.mem_cons_of_mem c hc') p hp'
      · have hpc : p = (c.id, F c) := by simpa using hp'
        rw [hpc]
        intro hcc
        apply hnd.1
        rw [show c.id = c'.id from hcc]
        exact List.mem_map.mpr ⟨c', hc', rfl⟩

/-- Mapping a function of the element equals mapping a function of the
zipped pair when they agree on every zipped pair. -/
theorem map_eq_zip_map {α β γ : Type} (f : α → γ) (g : α × β → γ) :
    ∀ (l : List α) (l' : List β), l.length = l'.length →
      (∀ p ∈ l.zip l', f p.1 = g p) → l.map f = (l.zip l').map g := by
  intro l
  induction l with
  | nil =>
    intro l' _ _
    simp
  | cons a t ih =>
    intro l' hlen hg
    cases l' with
    | nil => simp at hlen
    | cons b t' =>
      simp only [List.zip_cons_cons, List.map_cons]
      refine congrArg₂ _ (hg (a, b) (by simp)) ?_
      exact ih t' (by simpa using hlen) (fun p hp => hg p (List.mem_cons_of_mem _ hp))

theorem length_normalizeBM25 (bm25_scores : List ℚ) :
    (normalizeBM25 bm25_scores).length = bm25_scores.length := by
  unfold normalizeBM25
  by_cases h : 0 < pyMax bm25_scores
  · rw [if_pos h, List.length_map]
  · rw [if_neg h]

/-- The scored list described by C1's claim: every chunk of the document,
paired (positionally) with its normalized BM25 score, receives
`w·bm25_norm + (1-w)·semantic`, where a chunk absent from the semantic
candidate set contributes 0 as its semantic score. -/
def hybridScored (all_chunks : List TextChunk)
    (semantic_results : List SearchResult) (bm25_scores : List ℚ) (w : ℚ) :
    List SearchResult :=
  (all_chunks.zip (normalizeBM25 bm25_scores)).map (fun p =>
    { chunk := p.1,
      score := w * p.2 + (1 - w) *
        (((semantic_results.find? (fun r => p.1.id == r.chunk.id)).map
          SearchResult.score).getD 0),
      distance := none })

/-- The central equation for `search_hybrid`: with pairwise-distinct chunk
ids and semantic-result ids, and one BM25 score per chunk, the dict-based
pipeline computes exactly the claim's scored list, stably sorted
descending, filtered by the threshold and truncated. -/
theorem search_hybrid_eq_scored (all_chunks : List TextChunk)
    (semantic_results : List SearchResult) (bm25_scores : List ℚ)
    (w θ : ℚ) (m : ℕ)
    (hnd : (all_chunks.map TextChunk.id).Nodup)
    (hsem : (semantic_results.map (fun r => r.chunk.id)).Nodup)
    (hlen : bm25_scores.length = all_chunks.length) :
    search_hybrid all_chunks semantic_results bm25_scores w θ m =
      ((((hybridScored all_chunks semantic_results bm25_scores w).mergeSort
        (fun x y => decide (y.score ≤ x.score))).filter
        (fun r => decide (θ ≤ r.score))).take m) := by
  by_cases hne : all_chunks = []
  · subst hne
    simp [search_hybrid, hybridScored]
  · unfold search_hybrid
    rw [if_neg (by simp [List.isEmpty_iff, hne])]
    have hlen_norm : (normalizeBM25 bm25_scores).length = all_chunks.length := by
      rw [length_normalizeBM25]
      exact hlen
    have hfold := foldl_upsert_eq_map
      (fun chunk =>
        ({ chunk := chunk,
           score := w * pyDictGetD
               ((all_chunks.map TextChunk.id).zip (normalizeBM25 bm25_scores))
               chunk.id 0 +
             (1 - w) * pyDictGetD
               (semantic_results.map (fun r => (r.chunk.id, r.score))) chunk.id 0,
           distance := none } : SearchResult))
      all_chunks [] hnd (fun c _ p hp => absurd hp (List.not_mem_nil p))
    simp only [hfold, List.nil_append, List.map_map]
    have hmap : all_chunks.map
        ((fun p => p.2) ∘ fun c =>
          ((c.id,
            ({ chunk := c,
               score := w * pyDictGetD
                   ((all_chunks.map TextChunk.id).zip (normalizeBM25 bm25_scores))
                   c.id 0 +
                 (1 - w) * pyDictGetD
                   (semantic_results.map (fun r => (r.chunk.id, r.score))) c.id 0,
               distance := none } : SearchResult)) : String × SearchResult)) =
        hybridScored all_chunks semantic_results bm25_scores w := by
      unfold hybridScored
      apply map_eq_zip_map _ _ all_chunks (normalizeBM25 bm25_scores) hlen_norm.symm
      intro p hp
      obtain ⟨c, b⟩ := p
      simp only [Function.comp]
      have hkeys1 : ((all_chunks.map TextChunk.id).zip
          (normalizeBM25 bm25_scores) |>.map Prod.fst).Nodup := by
        rw [List.map_fst_zip _ _ (by rw [List.length_map, hlen_norm])]
        exact hnd
      have hkeys2 : ((semantic_results.map (fun r => (r.chunk.id, r.score))).map
          Prod.fst).Nodup := by
        rw [List.map_map]
        exact hsem
      congr 1
      rw [pyDictGetD_eq_lookup hkeys1, bm25_dict_lookup hnd hlen_norm hp,
        pyDictGetD_eq_lookup hkeys2, lookup_map_pair_eq_find?]
      rfl
    rw [hmap]

/-! ### Claim C1 — hybrid fusion -/

/-- **C1**: for every document, query, limit and weight `w`,
`search_hybrid` assigns every chunk the combined score
`w·bm25_norm + (1-w)·semantic_score` — a chunk absent from the semantic
candidate set contributes 0 as its semantic score (and the BM25 dict
covers the whole batch, one normalized score per chunk) — and the
returned list is those scored chunks sorted descending by combined score,
filtered to scores ≥ the configured similarity threshold, truncated to at
most `limit` entries. -/
theorem hybrid_fusion_spec (all_chunks : List TextChunk)
    (semantic_results : List SearchResult) (bm25_scores : List ℚ)
    (w θ : ℚ) (m : ℕ)
    (hnd : (all_chunks.map TextChunk.id).Nodup)
    (hsem : (semantic_results.map (fun r => r.chunk.id)).Nodup)
    (hlen : bm25_scores.length = all_chunks.length) :
    search_hybrid all_chunks semantic_results bm25_scores w θ m =
      ((((hybridScored all_chunks semantic_results bm25_scores w).mergeSort
        (fun x y => decide (y.score ≤ x.score))).filter
        (fun r => decide (θ ≤ r.score))).take m) ∧
    (search_hybrid all_chunks semantic_results bm25_scores w θ m).Pairwise
      (fun x y => y.score ≤ x.score) ∧
    (search_hybrid all_chunks semantic_results bm25_scores w θ m).length ≤ m ∧
    (∀ r ∈ search_hybrid all_chunks semantic_results bm25_scores w θ m,
      θ ≤ r.score) := by
  have heq := search_hybrid_eq_scored all_chunks semantic_results bm25_scores
    w θ m hnd hsem hlen
  refine ⟨heq, ?_, ?_, ?_⟩
  · rw [heq]
    have hs := @List.sorted_mergeSort SearchResult
      (fun x y => decide (y.score ≤ x.score))
      (fun p q r hpq hqr => by
        rw [decide_eq_true_iff] at *
        exact le_trans hqr hpq)
      (fun p q => by rcases le_total q.score p.score with h | h <;> simp [h])
      (hybridScored all_chunks semantic_results bm25_scores w)
    exact (List.Pairwise.sublist (List.take_sublist _ _)
      (List.Pairwise.sublist (List.filter_sublist _) hs)).imp
      (fun h => decide_eq_true_iff.mp h)
  · rw [heq]
    exact List.length_take_le _ _
  · rw [heq]
    intro r hr
    exact decide_eq_true_iff.mp (List.mem_filter.mp (List.mem_of_mem_take hr)).2

/-- Witness for C1 at a concrete chunk set, semantic result set and BM25
batch. -/
theorem hybrid_fusion_spec_witness :
    (search_hybrid [⟨"c1", "alpha", 1, 0, 2, none, none⟩]
      [⟨⟨"c1", "alpha", 1, 0, 2, none, none⟩, 1/2, none⟩] [1] (1/2) 0 5).length
      ≤ 5 :=
  (hybrid_fusion_spec [⟨"c1", "alpha", 1, 0, 2, none, none⟩]
    [⟨⟨"c1", "alpha", 1, 0, 2, none, none⟩, 1/2, none⟩] [1] (1/2) 0 5
    (by simp) (by simp) rfl).2.2.1

/-! ### Claim C2 — behaviour on an empty semantic candidate set -/

/-- **C2 counterexample**: one stored chunk, an *empty* semantic candidate
set, BM25 score 1, `bm25_weight = 1`, threshold `1/2`, limit 5:
`search_hybrid` returns the chunk (scored by BM25 alone) — not the empty
sequence, so the hybrid strategy does not short-circuit on an empty
semantic candidate set. -/
theorem hybrid_not_shortcircuit_cex :
    search_hybrid [⟨"c1", "hello", 1, 0, 2, none, none⟩] [] [1] 1 (1/2) 5 =
      [⟨⟨"c1", "hello", 1, 0, 2, none, none⟩, 1, none⟩] ∧
    search_hybrid [⟨"c1", "hello", 1, 0, 2, none, none⟩] [] [1] 1 (1/2) 5 ≠
      [] := by
  have heq := search_hybrid_eq_scored [⟨"c1", "hello", 1, 0, 2, none, none⟩]
    [] [1] 1 (1/2) 5 (by simp) (by simp) rfl
  have hsc : hybridScored [⟨"c1", "hello", 1, 0, 2, none, none⟩] [] [1] 1 =
      [⟨⟨"c1", "hello", 1, 0, 2, none, none⟩, 1, none⟩] := by
    unfold hybridScored normalizeBM25 pyMax
    norm_num
  have hval : search_hybrid [⟨"c1", "hello", 1, 0, 2, none, none⟩]
      [] [1] 1 (1/2) 5 = [⟨⟨"c1", "hello", 1, 0, 2, none, none⟩, 1, none⟩] := by
    rw [heq, hsc, List.mergeSort_singleton]
    norm_num [List.filter]
  exact ⟨hval, by rw [hval]; simp⟩

/-- **C2 (amended)**: `search_with_rerank` does return the empty sequence
on an empty semantic candidate set, and `search_hybrid` returns the empty
sequence when the document has no chunks at all; but `search_hybrid` does
not short-circuit on an empty semantic candidate set — with chunks
present it scores every chunk `w·bm25_norm + (1-w)·0`, a pure-lexical
fallback ranking. -/
theorem empty_semantic_candidates_behaviour :
    (∀ (reranker : List String → String →
        Except PyException (List (String × ℚ))) (query : String) (m : ℕ),
      search_with_rerank [] reranker query m = .ok []) ∧
    (∀ (semantic_results : List SearchResult) (bm25_scores : List ℚ)
        (w θ : ℚ) (m : ℕ),
      search_hybrid [] semantic_results bm25_scores w θ m = []) ∧
    (∀ (all_chunks : List TextChunk) (bm25_scores : List ℚ) (w θ : ℚ) (m : ℕ),
      (all_chunks.map TextChunk.id).Nodup →
      bm25_scores.length = all_chunks.length →
      search_hybrid all_chunks [] bm25_scores w θ m =
        ((((all_chunks.zip (normalizeBM25 bm25_scores)).map (fun p =>
          ({ chunk := p.1, score := w * p.2 + (1 - w) * 0,
             distance := none } : SearchResult))).mergeSort
          (fun x y => decide (y.score ≤ x.score))).filter
          (fun r => decide (θ ≤ r.score))).take m) := by
  refine ⟨fun reranker query m => rfl, fun semantic_results bm25_scores w θ m => rfl,
    fun all_chunks bm25_scores w θ m hnd hlen => ?_⟩
  exact search_hybrid_eq_scored all_chunks [] bm25_scores w θ m hnd (by simp) hlen

/-- Witness for C2's amended theorem: the rerank short-circuit and the
hybrid pure-lexical fallback at concrete inputs. -/
theorem empty_semantic_candidates_behaviour_witness :
    (search_with_rerank []
      (fun _ _ => .error (.thirdParty "CohereAPIError" "down")) "q" 3 = .ok []) ∧
    search_hybrid [⟨"c1", "hello", 1, 0, 2, none, none⟩] [] [2] 1 0 3 =
      (((([(⟨"c1", "hello", 1, 0, 2, none, none⟩ : TextChunk)].zip
        (normalizeBM25 [2])).map (fun p =>
        ({ chunk := p.1, score := 1 * p.2 + (1 - 1) * 0,
           distance := none } : SearchResult))).mergeSort
        (fun x y => decide (y.score ≤ x.score))).filter
        (fun r => decide ((0 : ℚ) ≤ r.score))).take 3 :=
  ⟨empty_semantic_candidates_behaviour.1
      (fun _ _ => .error (.thirdParty "CohereAPIError" "down")) "q" 3,
    empty_semantic_candidates_behaviour.2.2
      [⟨"c1", "hello", 1, 0, 2, none, none⟩] [2] 1 0 3 (by simp) rfl⟩

end Spec2Proof
